import Mathlib

/-!
Shallow embedding of the image-reference resolution and rewriting engine of
`sync_ob_posts.py` (class `ObsidianPostSync`): the attachment locator
`_locate_image_by_token`, the deduplicating copier `_copy_image_to_image_dir`,
and the two regex substitution passes of `_process_single_markdown`
(`repl_obsidian` for the `![[...]]` embed syntax and `replace_md_img` for the
standard `![alt](path)` syntax).

Modelling conventions:
- document text and file names are `List Char`;
- the filesystem is explicit data: the attachment tree is a list of
  `(subdirectory components, file name)` pairs, the flat output image
  directory is a ledger `List (name, source)` recording which source file each
  output name was copied from, and the remaining files of the target tree are a
  list of component paths relative to the target root;
- `\d` of the Python regex and `str.strip()` whitespace are modelled over
  ASCII, tokens are treated as literal names (no glob metacharacters), and
  `Path.resolve()` is modelled as lexical `..`/`.` normalisation below the
  target root (no symlinks; files outside the target root are not modelled, so
  an absolute path never resolves);
- printing and I/O errors are elided: each operation is a pure function from
  state to state.
-/

abbrev Txt := List Char

/-- Decimal digit character, as produced by Python `str(int)`. -/
def decDigitChar (n : Nat) : Char :=
  match n with
  | 0 => '0' | 1 => '1' | 2 => '2' | 3 => '3' | 4 => '4'
  | 5 => '5' | 6 => '6' | 7 => '7' | 8 => '8' | _ => '9'

/-- Value of a decimal digit character (10 on a non-digit). -/
def decDigitVal (c : Char) : Nat :=
  match c with
  | '0' => 0 | '1' => 1 | '2' => 2 | '3' => 3 | '4' => 4
  | '5' => 5 | '6' => 6 | '7' => 7 | '8' => 8 | '9' => 9
  | _ => 10

/-- Fuelled decimal representation; fuel `n + 1` always suffices. -/
def decReprF : Nat → Nat → Txt
  | 0, _ => []
  | f + 1, n => if n < 10 then [decDigitChar n] else decReprF f (n / 10) ++ [decDigitChar (n % 10)]

/-- Decimal representation of a natural number, as Python `str(int)`. -/
def decRepr (n : Nat) : Txt := decReprF (n + 1) n

/-- Numeric value of a digit string (left fold), inverse of `decRepr`. -/
def decVal (s : Txt) : Nat := s.foldl (fun a c => a * 10 + decDigitVal c) 0

/-- Index of the last `'.'` in a name, as Python `str.rfind('.')` (none if absent). -/
def lastDotIdx (name : Txt) : Option Nat :=
  ((List.range name.length).filter (fun i => decide (List.getD name i ' ' = '.'))).getLast?

/-- `pathlib` `suffix`: the final extension, empty unless the last dot is at
position `i` with `0 < i < len - 1`. -/
def pySuffix (name : Txt) : Txt :=
  match lastDotIdx name with
  | none => []
  | some i => if 0 < i ∧ i < name.length - 1 then name.drop i else []

/-- `pathlib` `stem`: the name up to the final extension. -/
def pyStem (name : Txt) : Txt :=
  match lastDotIdx name with
  | none => name
  | some i => if 0 < i ∧ i < name.length - 1 then name.take i else name

/-- Split a path string on `'/'` (accumulator-based). -/
def splitSlashF : Txt → Txt → List Txt
  | [], acc => [acc.reverse]
  | c :: cs, acc => if c = '/' then acc.reverse :: splitSlashF cs [] else splitSlashF cs (c :: acc)

/-- Path components as `pathlib` keeps them: empty and `"."` components dropped. -/
def pathParts (s : Txt) : List Txt :=
  (splitSlashF s []).filter (fun c => decide (c ≠ []) && decide (c ≠ ['.']))

/-- `pathlib` `name`: final path component (empty for an empty path). -/
def pathName (s : Txt) : Txt := (pathParts s).getLast?.getD []

/-- Remove every literal dot, as `name.replace(".", "")`. -/
def remDots (name : Txt) : Txt := name.filter (fun c => decide (c ≠ '.'))

/-- The supported image extensions, in the source's preference order. -/
def image_exts : List Txt :=
  [(".png").data, (".jpg").data, (".jpeg").data, (".gif").data, (".svg").data, (".webp").data]

/-- Candidate-name list of `_locate_image_by_token`: the bare name; when the
name carries no `pathlib` suffix, also the name with each supported extension
appended and the dot-stripped name with each extension appended. -/
def locate_candidates (token : Txt) : List Txt :=
  let name := pathName token
  if pySuffix name = [] then
    name :: (image_exts.map (fun e => name ++ e) ++ image_exts.map (fun e => remDots name ++ e))
  else [name]

/-- One candidate lookup: first a direct check at the attachment root, then the
recursive `rglob` search, first hit in tree order. -/
def att_hit (att : List (List Txt × Txt)) (cand : Txt) : Option (List Txt × Txt) :=
  match att.find? (fun e => decide (e.1 = [] ∧ e.2 = cand)) with
  | some e => some e
  | none => att.find? (fun e => decide (e.2 = cand))

/-- `_locate_image_by_token`: first candidate with a hit wins. -/
def locate_image_by_token (att : List (List Txt × Txt)) (token : Txt) :
    Option (List Txt × Txt) :=
  (locate_candidates token).findSome? (att_hit att)

/-- A source file materialised into the image directory: either an attachment
(found by the locator) or a file of the target tree (a resolved relative path). -/
inductive SrcFile where
  | fromAtt (dirs : List Txt) (fname : Txt)
  | fromTgt (path : List Txt)
deriving DecidableEq

/-- Base name of a source file (`Path.name`). -/
def SrcFile.name : SrcFile → Txt
  | .fromAtt _ n => n
  | .fromTgt p => p.getLast?.getD []

/-- Names currently present in the output image directory. -/
def imageNames (img : List (Txt × SrcFile)) : List Txt := img.map (fun e => e.1)

/-- The probed collision name `f"{stem}_{idx}{ext}"`. -/
def mk_idx_name (stem ext : Txt) (i : Nat) : Txt := stem ++ ('_' :: decRepr i) ++ ext

/-- The `while True` probe loop, fuelled; fuel `img.length + 1` always finds a
free name (the probed names are pairwise distinct). -/
def probe_name (img : List (Txt × SrcFile)) (stem ext : Txt) : Nat → Nat → Txt
  | 0, i => mk_idx_name stem ext i
  | f + 1, i =>
    if mk_idx_name stem ext i ∈ imageNames img then probe_name img stem ext f (i + 1)
    else mk_idx_name stem ext i

/-- `_copy_image_to_image_dir`: copy under the base name if free, otherwise
probe `stem_1.ext`, `stem_2.ext`, … in increasing order. Returns the name used
and the extended ledger. -/
def copy_image_to_image_dir (img : List (Txt × SrcFile)) (src : SrcFile) :
    Txt × List (Txt × SrcFile) :=
  let n := SrcFile.name src
  if n ∈ imageNames img then
    let alt := probe_name img (pyStem n) (pySuffix n) (img.length + 1) 1
    (alt, (alt, src) :: img)
  else (n, (n, src) :: img)

/-- Python `str.strip()` whitespace (ASCII subset). -/
def isPyWs (c : Char) : Bool :=
  decide (c = ' ' ∨ c = '\t' ∨ c = '\n' ∨ c = '\r' ∨ c = '\u000B' ∨ c = '\u000C')

/-- Left strip by a character class. -/
def lstripBy (p : Char → Bool) (s : Txt) : Txt := s.dropWhile p

/-- Right strip by a character class. -/
def rstripBy (p : Char → Bool) (s : Txt) : Txt := (s.reverse.dropWhile p).reverse

/-- Python `str.strip()`. -/
def pyStrip (s : Txt) : Txt := rstripBy isPyWs (lstripBy isPyWs s)

/-- The pipe character class, for `param.strip("|")`. -/
def isPipe (c : Char) : Bool := decide (c = '|')

/-- Python `param.strip("|")`. -/
def pyStripPipes (s : Txt) : Txt := rstripBy isPipe (lstripBy isPipe s)

/-- Characters allowed in the embed token `[^|\]]+`. -/
def embedTokChar (c : Char) : Bool := decide (¬ (c = '|' ∨ c = ']'))

/-- Characters allowed before a closing bracket, `[^\]]`. -/
def notRBrack (c : Char) : Bool := decide (¬ c = ']')

/-- Characters allowed before a closing parenthesis, `[^)]`. -/
def notRParen (c : Char) : Bool := decide (¬ c = ')')

/-- Match of the embed pattern `!\[\[([^|\]]+)(\|[^\]]+)?\]\]` anchored at the
head of the text: returns the token, the optional parameter (text after the
pipe) and the remainder after the match. Both regex pieces are greedy with no
observable backtracking, so maximal runs are faithful. -/
def matchEmbedAt (s : Txt) : Option (Txt × Option Txt × Txt) :=
  if s.take 3 = ("![[").data then
    let r := s.drop 3
    let tok := r.takeWhile embedTokChar
    let d := r.dropWhile embedTokChar
    if tok = [] then none
    else if d.head? = some '|' then
      let r2 := d.tail
      let par := r2.takeWhile notRBrack
      let d2 := r2.dropWhile notRBrack
      if par = [] then none
      else if d2.take 2 = ("]]").data then some (tok, some par, d2.drop 2) else none
    else if d.take 2 = ("]]").data then some (tok, none, d.drop 2) else none
  else none

/-- Match of the standard pattern `!\[[^\]]*\]\(([^)]+)\)` anchored at the head
of the text: returns the alt text, the raw path and the remainder. -/
def matchMdAt (s : Txt) : Option (Txt × Txt × Txt) :=
  if s.take 2 = ("![").data then
    let r := s.drop 2
    let alt := r.takeWhile notRBrack
    let d := r.dropWhile notRBrack
    if d.take 2 = ("](").data then
      let r2 := d.drop 2
      let raw := r2.takeWhile notRParen
      let d2 := r2.dropWhile notRParen
      if raw = [] then none
      else if d2.head? = some ')' then some (alt, raw, d2.tail) else none
    else none
  else none

/-- The exact text of an embed match, `![[token]]` or `![[token|param]]`. -/
def embedSpan (tok : Txt) (par : Option Txt) : Txt :=
  ("![[").data ++ tok ++ (match par with | none => [] | some p => '|' :: p) ++ ("]]").data

/-- The exact text of a standard-markup match, `![alt](raw)`. -/
def mdSpan (alt raw : Txt) : Txt := '!' :: '[' :: (alt ++ ']' :: '(' :: (raw ++ [')']))

/-- The emitted image tag `<img src="image/NAME"ATTRS>`. -/
def imgTagTxt (fname attrs : Txt) : Txt :=
  ("<img src=\"image/").data ++ fname ++ ['"'] ++ attrs ++ ['>']

/-- The emitted size attributes ` width="W" height="H"`. -/
def sizeAttrs (w h : Txt) : Txt :=
  (" width=\"").data ++ w ++ ['"'] ++ (" height=\"").data ++ h ++ ['"']

/-- `re.match(r"(\d+)x(\d+)$", dims)`: digits, `x`, digits, then the end of the
string or a single final newline (Python `$`). -/
def parse_wxh (dims : Txt) : Option (Txt × Txt) :=
  let w := dims.takeWhile Char.isDigit
  match dims.dropWhile Char.isDigit with
  | 'x' :: r =>
    let h := r.takeWhile Char.isDigit
    let r2 := r.dropWhile Char.isDigit
    if w = [] ∨ h = [] then none
    else if r2 = [] ∨ r2 = ['\n'] then some (w, h) else none
  | _ => none

/-- Sync-pass state: the attachment tree (read-only), the non-image files of
the target tree (read-only within one rewrite), and the image-directory ledger. -/
structure SyncSt where
  att : List (List Txt × Txt)
  tgtFiles : List (List Txt)
  image : List (Txt × SrcFile)
deriving DecidableEq

/-- `repl_obsidian`: resolve the stripped token; on failure return the matched
text unchanged; on success copy the file and emit the image tag, with size
attributes exactly when the pipe-stripped parameter parses as `WxH`. -/
def repl_obsidian (st : SyncSt) (tokRaw : Txt) (par : Option Txt) : Txt × SyncSt :=
  let token := pyStrip tokRaw
  match locate_image_by_token st.att token with
  | none => (embedSpan tokRaw par, st)
  | some e =>
    let pr := copy_image_to_image_dir st.image (SrcFile.fromAtt e.1 e.2)
    let attrs :=
      match par with
      | none => []
      | some p =>
        match parse_wxh (pyStripPipes p) with
        | some wh => sizeAttrs wh.1 wh.2
        | none => []
    (imgTagTxt pr.1 attrs, { st with image := pr.2 })

/-- Prefix test on texts (`str.startswith`). -/
def startsWithTxt (pre s : Txt) : Bool := decide (s.take pre.length = pre)

/-- The skip guard of `replace_md_img` on the stripped path. -/
def guardedPath (p : Txt) : Bool :=
  startsWithTxt (("http://").data) p || startsWithTxt (("https://").data) p ||
  startsWithTxt (("data:").data) p || startsWithTxt (("image/").data) p

/-- Lexical resolution of a relative path against a base directory, both given
as components under the target root (`Path.resolve()` below that root: `..`
pops, other components push). -/
def resolveRel (base : List Txt) (parts : List Txt) : List Txt :=
  (base ++ parts).foldl (fun acc c => if c = ("..").data then acc.dropLast else acc ++ [c]) []

/-- The resolved candidate `(md_path.parent / raw_path).resolve()`; an absolute
raw path leaves the modelled target tree, hence no candidate. -/
def md_candidate (docDir : List Txt) (p : Txt) : Option (List Txt) :=
  if p.head? = some '/' then none else some (resolveRel docDir (pathParts p))

/-- File existence in the target tree: a listed target file, or a file of the
image directory under `image/<name>`. -/
def tgtExists (st : SyncSt) (path : List Txt) : Bool :=
  decide (path ∈ st.tgtFiles) ||
  (match path with
   | [a, b] => decide (a = ("image").data) && decide (b ∈ imageNames st.image)
   | _ => false)

/-- Resolution of a standard-markup path: the candidate relative to the
document if it exists, otherwise the attachment locator on the final filename
component. -/
def md_resolve (st : SyncSt) (docDir : List Txt) (p : Txt) : Option SrcFile :=
  match md_candidate docDir p with
  | some cand =>
    if tgtExists st cand then some (SrcFile.fromTgt cand)
    else (locate_image_by_token st.att (pathName p)).map (fun e => SrcFile.fromAtt e.1 e.2)
  | none => (locate_image_by_token st.att (pathName p)).map (fun e => SrcFile.fromAtt e.1 e.2)

/-- `replace_md_img`: skip guarded paths, otherwise resolve (document-relative
first, locator fallback); on failure return the matched text unchanged, on
success copy and emit a tag without size attributes. -/
def replace_md_img (st : SyncSt) (docDir : List Txt) (alt raw : Txt) : Txt × SyncSt :=
  let p := pyStrip raw
  if guardedPath p then (mdSpan alt raw, st)
  else
    match md_resolve st docDir p with
    | none => (mdSpan alt raw, st)
    | some src =>
      let pr := copy_image_to_image_dir st.image src
      (imgTagTxt pr.1 [], { st with image := pr.2 })

/-- The embed-syntax `re.sub` scan, fuelled (fuel `length + 1` suffices):
leftmost matches, replacements not rescanned, side effects in match order. -/
def sub_obsidian_f : Nat → SyncSt → Txt → Txt × SyncSt
  | 0, st, s => (s, st)
  | _ + 1, st, [] => ([], st)
  | f + 1, st, c :: cs =>
    match matchEmbedAt (c :: cs) with
    | some m =>
      let pr := repl_obsidian st m.1 m.2.1
      let pr2 := sub_obsidian_f f pr.2 m.2.2
      (pr.1 ++ pr2.1, pr2.2)
    | none =>
      let pr := sub_obsidian_f f st cs
      (c :: pr.1, pr.2)

/-- The standard-markup `re.sub` scan, fuelled. -/
def sub_md_img_f (docDir : List Txt) : Nat → SyncSt → Txt → Txt × SyncSt
  | 0, st, s => (s, st)
  | _ + 1, st, [] => ([], st)
  | f + 1, st, c :: cs =>
    match matchMdAt (c :: cs) with
    | some m =>
      let pr := replace_md_img st docDir m.1 m.2.1
      let pr2 := sub_md_img_f docDir f pr.2 m.2.2
      (pr.1 ++ pr2.1, pr2.2)
    | none =>
      let pr := sub_md_img_f docDir f st cs
      (c :: pr.1, pr.2)

/-- First substitution pass of `_process_single_markdown`. -/
def sub_obsidian (st : SyncSt) (s : Txt) : Txt × SyncSt := sub_obsidian_f (s.length + 1) st s

/-- Second substitution pass of `_process_single_markdown`. -/
def sub_md_img (st : SyncSt) (docDir : List Txt) (s : Txt) : Txt × SyncSt :=
  sub_md_img_f docDir (s.length + 1) st s

/-- `_process_single_markdown` on one document: the embed pass, then the
standard-markup pass over its output (the write-back is elided). -/
def process_single_markdown (st : SyncSt) (docDir : List Txt) (text : Txt) : Txt × SyncSt :=
  let pr := sub_obsidian st text
  sub_md_img pr.2 docDir pr.1

/-- Every embed match in the text fails to locate (fuelled companion of
`sub_obsidian_f`). -/
def embed_all_fail_f (att : List (List Txt × Txt)) : Nat → Txt → Bool
  | 0, _ => false
  | _ + 1, [] => true
  | f + 1, c :: cs =>
    match matchEmbedAt (c :: cs) with
    | some m =>
      decide (locate_image_by_token att (pyStrip m.1) = none) && embed_all_fail_f att f m.2.2
    | none => embed_all_fail_f att f cs

/-- Every embed match in the text fails to locate. -/
def embed_all_fail (att : List (List Txt × Txt)) (s : Txt) : Bool :=
  embed_all_fail_f att (s.length + 1) s

/-- Every standard-markup match in the text is guarded or fails to resolve. -/
def md_no_change_f (st : SyncSt) (docDir : List Txt) : Nat → Txt → Bool
  | 0, _ => false
  | _ + 1, [] => true
  | f + 1, c :: cs =>
    match matchMdAt (c :: cs) with
    | some m =>
      (guardedPath (pyStrip m.2.1) || decide (md_resolve st docDir (pyStrip m.2.1) = none)) &&
        md_no_change_f st docDir f m.2.2
    | none => md_no_change_f st docDir f cs

/-- Every standard-markup match in the text is guarded or fails to resolve. -/
def md_no_change (st : SyncSt) (docDir : List Txt) (s : Txt) : Bool :=
  md_no_change_f st docDir (s.length + 1) s

/-- Modelled from the spec: the claim's "exact numeric-by-numeric shape `WxH`"
for the embed size parameter (digits, `x`, digits, nothing else), stated from
the claim's words for comparison with the code's parameter handling. -/
def specExactWxH (p : Txt) : Bool :=
  match p.dropWhile Char.isDigit with
  | 'x' :: r => decide (p.takeWhile Char.isDigit ≠ []) && decide (r ≠ []) && r.all Char.isDigit
  | _ => false

theorem len_dropWhile_le (p : Char → Bool) (l : Txt) : (l.dropWhile p).length ≤ l.length := by
  induction l with
  | nil => simp
  | cons x xs ih =>
    by_cases h : p x
    · simp only [List.dropWhile_cons, h, if_true]
      exact ih.trans (Nat.le_succ _)
    · simp [List.dropWhile_cons, h]

theorem dropWhile_self_idem (p : Char → Bool) (l : Txt) :
    List.dropWhile p (List.dropWhile p l) = List.dropWhile p l := by
  induction l with
  | nil => rfl
  | cons x xs ih =>
    by_cases h : p x
    · simp [List.dropWhile_cons, h, ih]
    · simp [List.dropWhile_cons, h]

theorem dropWhile_append_stop (p : Char → Bool) (a q : Txt) (d : Char) (hd : p d = false) :
    ∃ a', List.dropWhile p (a ++ d :: q) = a' ++ d :: q := by
  induction a with
  | nil => exact ⟨[], by simp [List.dropWhile_cons, hd]⟩
  | cons x xs ih =>
    by_cases h : p x
    · obtain ⟨a', ha⟩ := ih
      exact ⟨a', by simp [List.dropWhile_cons, h, ha]⟩
    · exact ⟨x :: xs, by simp [List.dropWhile_cons, h]⟩


theorem matchEmbedAt_span {s tok : Txt} {par : Option Txt} {rest : Txt}
    (h : matchEmbedAt s = some (tok, par, rest)) : s = embedSpan tok par ++ rest := by
  simp only [matchEmbedAt] at h
  split at h
  case isFalse => exact absurd h (by simp)
  case isTrue h3 =>
    split at h
    case isTrue => exact absurd h (by simp)
    case isFalse htok =>
      split at h
      case isTrue hpipe =>
        split at h
        case isTrue => exact absurd h (by simp)
        case isFalse hpar =>
          split at h
          case isFalse => exact absurd h (by simp)
          case isTrue hclose =>
            simp only [Option.some.injEq, Prod.mk.injEq] at h
            obtain ⟨h1, h2, h4⟩ := h
            subst h1
            subst h2
            subst h4
            have e0 : s.take 3 ++ s.drop 3 = s := List.take_append_drop 3 s
            have e1 : (s.drop 3).takeWhile embedTokChar ++ (s.drop 3).dropWhile embedTokChar
                = s.drop 3 := List.takeWhile_append_dropWhile embedTokChar (s.drop 3)
            have e2 : (s.drop 3).dropWhile embedTokChar
                = '|' :: ((s.drop 3).dropWhile embedTokChar).tail := by
              cases hd : (s.drop 3).dropWhile embedTokChar with
              | nil => rw [hd] at hpipe; simp at hpipe
              | cons x xs => rw [hd] at hpipe; simp at hpipe; simp [hpipe]
            have e3 : (((s.drop 3).dropWhile embedTokChar).tail).takeWhile notRBrack
                ++ (((s.drop 3).dropWhile embedTokChar).tail).dropWhile notRBrack
                = ((s.drop 3).dropWhile embedTokChar).tail :=
              List.takeWhile_append_dropWhile notRBrack _
            have e4 : ((((s.drop 3).dropWhile embedTokChar).tail).dropWhile notRBrack).take 2
                ++ ((((s.drop 3).dropWhile embedTokChar).tail).dropWhile notRBrack).drop 2
                = (((s.drop 3).dropWhile embedTokChar).tail).dropWhile notRBrack :=
              List.take_append_drop 2 _
            conv_lhs => rw [← e0, h3, ← e1, e2, ← e3, ← e4, hclose]
            simp [embedSpan]
      case isFalse hpipe =>
        split at h
        case isFalse => exact absurd h (by simp)
        case isTrue hclose =>
          simp only [Option.some.injEq, Prod.mk.injEq] at h
          obtain ⟨h1, h2, h4⟩ := h
          subst h1
          subst h4
          have e0 : s.take 3 ++ s.drop 3 = s := List.take_append_drop 3 s
          have e1 : (s.drop 3).takeWhile embedTokChar ++ (s.drop 3).dropWhile embedTokChar
              = s.drop 3 := List.takeWhile_append_dropWhile embedTokChar (s.drop 3)
          have e4 : ((s.drop 3).dropWhile embedTokChar).take 2
              ++ ((s.drop 3).dropWhile embedTokChar).drop 2
              = (s.drop 3).dropWhile embedTokChar := List.take_append_drop 2 _
          conv_lhs => rw [← e0, h3, ← e1, ← e4, hclose]
          simp [embedSpan, ← h2]

theorem matchEmbedAt_len {s tok : Txt} {par : Option Txt} {rest : Txt}
    (h : matchEmbedAt s = some (tok, par, rest)) : rest.length < s.length := by
  simp only [matchEmbedAt] at h
  split at h
  case isFalse => exact absurd h (by simp)
  case isTrue h3 =>
    have hs3 : 3 ≤ s.length := by
      have := congrArg List.length h3
      simp [List.length_take] at this
      omega
    split at h
    case isTrue => exact absurd h (by simp)
    case isFalse htok =>
      have hdle : ((s.drop 3).dropWhile embedTokChar).length ≤ s.length - 3 := by
        have := len_dropWhile_le embedTokChar (s.drop 3)
        simpa using this
      split at h
      case isTrue hpipe =>
        split at h
        case isTrue => exact absurd h (by simp)
        case isFalse hpar =>
          split at h
          case isFalse => exact absurd h (by simp)
          case isTrue hclose =>
            simp only [Option.some.injEq, Prod.mk.injEq] at h
            obtain ⟨h1, h2, h4⟩ := h
            subst h4
            have e2 : ((s.drop 3).dropWhile embedTokChar).length
                = (((s.drop 3).dropWhile embedTokChar).tail).length + 1 := by
              cases hd : (s.drop 3).dropWhile embedTokChar with
              | nil => rw [hd] at hpipe; simp at hpipe
              | cons x xs => simp
            have hd2 : ((((s.drop 3).dropWhile embedTokChar).tail).dropWhile notRBrack).length
                ≤ (((s.drop 3).dropWhile embedTokChar).tail).length :=
              len_dropWhile_le notRBrack _
            have h2le : 2 ≤ ((((s.drop 3).dropWhile embedTokChar).tail).dropWhile notRBrack).length := by
              have := congrArg List.length hclose
              simp [List.length_take] at this
              omega
            simp only [List.length_drop]
            omega
      case isFalse hpipe =>
        split at h
        case isFalse => exact absurd h (by simp)
        case isTrue hclose =>
          simp only [Option.some.injEq, Prod.mk.injEq] at h
          obtain ⟨h1, h2, h4⟩ := h
          subst h4
          have h2le : 2 ≤ ((s.drop 3).dropWhile embedTokChar).length := by
            have := congrArg List.length hclose
            simp [List.length_take] at this
            omega
          simp only [List.length_drop]
          omega

theorem matchMdAt_span {s alt raw rest : Txt}
    (h : matchMdAt s = some (alt, raw, rest)) : s = mdSpan alt raw ++ rest := by
  simp only [matchMdAt] at h
  split at h
  case isFalse => exact absurd h (by simp)
  case isTrue h3 =>
    split at h
    case isFalse => exact absurd h (by simp)
    case isTrue hbr =>
      split at h
      case isTrue => exact absurd h (by simp)
      case isFalse hraw =>
        split at h
        case isFalse => exact absurd h (by simp)
        case isTrue hpar =>
          simp only [Option.some.injEq, Prod.mk.injEq] at h
          obtain ⟨h1, h2, h4⟩ := h
          subst h1
          subst h2
          subst h4
          have e0 : s.take 2 ++ s.drop 2 = s := List.take_append_drop 2 s
          have e1 : (s.drop 2).takeWhile notRBrack ++ (s.drop 2).dropWhile notRBrack
              = s.drop 2 := List.takeWhile_append_dropWhile notRBrack (s.drop 2)
          have e2 : ((s.drop 2).dropWhile notRBrack).take 2
              ++ ((s.drop 2).dropWhile notRBrack).drop 2
              = (s.drop 2).dropWhile notRBrack := List.take_append_drop 2 _
          have e3 : (((s.drop 2).dropWhile notRBrack).drop 2).takeWhile notRParen
              ++ (((s.drop 2).dropWhile notRBrack).drop 2).dropWhile notRParen
              = ((s.drop 2).dropWhile notRBrack).drop 2 :=
            List.takeWhile_append_dropWhile notRParen _
          have e4 : ((((s.drop 2).dropWhile notRBrack).drop 2).dropWhile notRParen)
              = ')' :: ((((s.drop 2).dropWhile notRBrack).drop 2).dropWhile notRParen).tail := by
            cases hd : (((s.drop 2).dropWhile notRBrack).drop 2).dropWhile notRParen with
            | nil => rw [hd] at hpar; simp at hpar
            | cons x xs => rw [hd] at hpar; simp at hpar; simp [hpar]
          conv_lhs => rw [← e0, h3, ← e1, ← e2, hbr, ← e3, e4]
          simp [mdSpan]

theorem matchMdAt_len {s alt raw rest : Txt}
    (h : matchMdAt s = some (alt, raw, rest)) : rest.length < s.length := by
  simp only [matchMdAt] at h
  split at h
  case isFalse => exact absurd h (by simp)
  case isTrue h3 =>
    have hs2 : 2 ≤ s.length := by
      have := congrArg List.length h3
      simp [List.length_take] at this
      omega
    split at h
    case isFalse => exact absurd h (by simp)
    case isTrue hbr =>
      have hdle : ((s.drop 2).dropWhile notRBrack).length ≤ s.length - 2 := by
        have := len_dropWhile_le notRBrack (s.drop 2)
        simpa using this
      have hd2 : 2 ≤ ((s.drop 2).dropWhile notRBrack).length := by
        have := congrArg List.length hbr
        simp [List.length_take] at this
        omega
      split at h
      case isTrue => exact absurd h (by simp)
      case isFalse hraw =>
        split at h
        case isFalse => exact absurd h (by simp)
        case isTrue hpar =>
          simp only [Option.some.injEq, Prod.mk.injEq] at h
          obtain ⟨h1, h2, h4⟩ := h
          subst h4
          have hd3 : ((((s.drop 2).dropWhile notRBrack).drop 2).dropWhile notRParen).length
              ≤ (((s.drop 2).dropWhile notRBrack).drop 2).length :=
            len_dropWhile_le notRParen _
          have e4 : ((((s.drop 2).dropWhile notRBrack).drop 2).dropWhile notRParen).length
              = (((((s.drop 2).dropWhile notRBrack).drop 2).dropWhile notRParen).tail).length + 1 := by
            cases hd : (((s.drop 2).dropWhile notRBrack).drop 2).dropWhile notRParen with
            | nil => rw [hd] at hpar; simp at hpar
            | cons x xs => simp
          simp only [List.length_drop] at hd3 ⊢
          omega

theorem repl_obsidian_notFound {st : SyncSt} {tok : Txt} {par : Option Txt}
    (h : locate_image_by_token st.att (pyStrip tok) = none) :
    repl_obsidian st tok par = (embedSpan tok par, st) := by
  simp [repl_obsidian, h]

theorem replace_md_img_skip {st : SyncSt} {docDir : List Txt} {alt raw : Txt}
    (h : guardedPath (pyStrip raw) = true ∨ md_resolve st docDir (pyStrip raw) = none) :
    replace_md_img st docDir alt raw = (mdSpan alt raw, st) := by
  by_cases hg : guardedPath (pyStrip raw)
  · simp [replace_md_img, hg]
  · rcases h with h | h
    · exact absurd h (by simp [hg])
    · simp [replace_md_img, hg, h]

theorem sub_obsidian_noop : ∀ (f : Nat) (st : SyncSt) (s : Txt), s.length < f →
    embed_all_fail_f st.att f s = true → sub_obsidian_f f st s = (s, st) := by
  intro f
  induction f with
  | zero => intro st s h _; omega
  | succ f ih =>
    intro st s hlen hfail
    cases s with
    | nil => rfl
    | cons c cs =>
      cases hm : matchEmbedAt (c :: cs) with
      | some m =>
        obtain ⟨tok, par, rest⟩ := m
        simp only [embed_all_fail_f, hm, Bool.and_eq_true, decide_eq_true_eq] at hfail
        have hrest : rest.length < f := by
          have := matchEmbedAt_len hm
          simp at hlen this
          omega
        have hrec := ih st rest hrest hfail.2
        simp only [sub_obsidian_f, hm, repl_obsidian_notFound hfail.1, hrec]
        rw [← matchEmbedAt_span hm]
      | none =>
        simp only [embed_all_fail_f, hm] at hfail
        have hrec := ih st cs (by simp at hlen; omega) hfail
        simp [sub_obsidian_f, hm, hrec]

theorem sub_md_img_noop : ∀ (f : Nat) (st : SyncSt) (docDir : List Txt) (s : Txt),
    s.length < f → md_no_change_f st docDir f s = true →
    sub_md_img_f docDir f st s = (s, st) := by
  intro f
  induction f with
  | zero => intro st docDir s h _; omega
  | succ f ih =>
    intro st docDir s hlen hfail
    cases s with
    | nil => rfl
    | cons c cs =>
      cases hm : matchMdAt (c :: cs) with
      | some m =>
        obtain ⟨alt, raw, rest⟩ := m
        simp only [md_no_change_f, hm, Bool.and_eq_true, Bool.or_eq_true,
          decide_eq_true_eq] at hfail
        have hrest : rest.length < f := by
          have := matchMdAt_len hm
          simp at hlen this
          omega
        have hrec := ih st docDir rest hrest hfail.2
        simp only [sub_md_img_f, hm, replace_md_img_skip hfail.1, hrec]
        rw [← matchMdAt_span hm]
      | none =>
        simp only [md_no_change_f, hm] at hfail
        have hrec := ih st docDir cs (by simp at hlen; omega) hfail
        simp [sub_md_img_f, hm, hrec]

theorem sub_obsidian_noop' (st : SyncSt) (s : Txt) (h : embed_all_fail st.att s = true) :
    sub_obsidian st s = (s, st) :=
  sub_obsidian_noop (s.length + 1) st s (by omega) h

theorem sub_md_img_noop' (st : SyncSt) (docDir : List Txt) (s : Txt)
    (h : md_no_change st docDir s = true) : sub_md_img st docDir s = (s, st) :=
  sub_md_img_noop (s.length + 1) st docDir s (by omega) h

theorem dropWhile_head_false (p : Char → Bool) (l : Txt) (c : Char)
    (h : (l.dropWhile p).head? = some c) : p c = false := by
  induction l with
  | nil => simp at h
  | cons x xs ih =>
    by_cases hx : p x
    · rw [List.dropWhile_cons, if_pos hx] at h
      exact ih h
    · rw [List.dropWhile_cons, if_neg hx] at h
      simp at h
      rw [← h]
      exact Bool.eq_false_iff.mpr hx

theorem rstripBy_idem (p : Char → Bool) (l : Txt) :
    rstripBy p (rstripBy p l) = rstripBy p l := by
  simp [rstripBy, List.reverse_reverse, dropWhile_self_idem]

theorem startsWithTxt_iff {pre s : Txt} : startsWithTxt pre s = true ↔ ∃ t, s = pre ++ t := by
  constructor
  · intro h
    simp only [startsWithTxt, decide_eq_true_eq] at h
    exact ⟨s.drop pre.length, by conv_lhs => rw [← List.take_append_drop pre.length s, h]⟩
  · rintro ⟨t, rfl⟩
    simp [startsWithTxt, List.take_left]

theorem pyStrip_keeps {t : Txt} {c d : Char} {pre' rev' : Txt}
    (hrev : (c :: pre').reverse = d :: rev')
    (hc : isPyWs c = false) (hd : isPyWs d = false) :
    ∃ u, pyStrip ((c :: pre') ++ t) = (c :: pre') ++ u := by
  have l1 : lstripBy isPyWs ((c :: pre') ++ t) = (c :: pre') ++ t := by
    simp [lstripBy, List.dropWhile_cons, hc]
  have hrv : ((c :: pre') ++ t).reverse = t.reverse ++ (d :: rev') := by
    rw [List.reverse_append, hrev]
  obtain ⟨a', ha⟩ := dropWhile_append_stop isPyWs t.reverse rev' d hd
  refine ⟨a'.reverse, ?_⟩
  have hback : (d :: rev').reverse = c :: pre' := by rw [← hrev, List.reverse_reverse]
  calc pyStrip ((c :: pre') ++ t)
      = rstripBy isPyWs ((c :: pre') ++ t) := by rw [pyStrip, l1]
    _ = ((t.reverse ++ (d :: rev')).dropWhile isPyWs).reverse := by rw [rstripBy, hrv]
    _ = (a' ++ d :: rev').reverse := by rw [ha]
    _ = (c :: pre') ++ a'.reverse := by rw [List.reverse_append, hback]

theorem pyStrip_idem (s : Txt) : pyStrip (pyStrip s) = pyStrip s := by
  cases hl : lstripBy isPyWs s with
  | nil =>
    have h0 : pyStrip s = [] := by rw [pyStrip, hl]; rfl
    rw [h0]
    rfl
  | cons c t =>
    have hc : isPyWs c = false := by
      refine dropWhile_head_false isPyWs s c ?_
      show (lstripBy isPyWs s).head? = some c
      rw [hl]
      rfl
    obtain ⟨a', ha⟩ := dropWhile_append_stop isPyWs t.reverse [] c hc
    have hps : pyStrip s = c :: a'.reverse := by
      calc pyStrip s = rstripBy isPyWs (c :: t) := by rw [pyStrip, hl]
        _ = ((t.reverse ++ [c]).dropWhile isPyWs).reverse := by
              rw [rstripBy, List.reverse_cons]
        _ = (a' ++ [c]).reverse := by rw [ha]
        _ = c :: a'.reverse := by rw [List.reverse_append]; rfl
    have hhead : ∀ x ∈ (a' ++ [c]).head?, isPyWs x = false := by
      intro x hx
      cases a'' : a' with
      | nil =>
        rw [a''] at hx
        simp at hx
        exact hx ▸ hc
      | cons y ys =>
        rw [a''] at hx
        simp at hx
        refine hx ▸ dropWhile_head_false isPyWs (t.reverse ++ [c]) y ?_
        rw [ha, a'']
        rfl
    have hid : (a' ++ [c]).dropWhile isPyWs = a' ++ [c] := by
      cases a'' : a' ++ [c] with
      | nil => simp at a''
      | cons z zs =>
        have hz : isPyWs z = false := by
          refine hhead z ?_
          rw [a'']
          rfl
        rw [List.dropWhile_cons, if_neg (by simp [hz])]
    rw [hps]
    have l1 : lstripBy isPyWs (c :: a'.reverse) = c :: a'.reverse := by
      simp [lstripBy, List.dropWhile_cons, hc]
    calc pyStrip (c :: a'.reverse)
        = rstripBy isPyWs (c :: a'.reverse) := by rw [pyStrip, l1]
      _ = ((a'.reverse.reverse ++ [c]).dropWhile isPyWs).reverse := by
            rw [rstripBy, List.reverse_cons]
      _ = ((a' ++ [c]).dropWhile isPyWs).reverse := by rw [List.reverse_reverse]
      _ = (a' ++ [c]).reverse := by rw [hid]
      _ = c :: a'.reverse := by rw [List.reverse_append]; rfl

theorem decDigitVal_decDigitChar {n : Nat} (h : n < 10) : decDigitVal (decDigitChar n) = n := by
  interval_cases n <;> rfl

theorem decVal_decReprF : ∀ f n, n < f → decVal (decReprF f n) = n := by
  intro f
  induction f with
  | zero => intro n h; omega
  | succ f ih =>
    intro n h
    by_cases h10 : n < 10
    · simp [decReprF, h10, decVal, decDigitVal_decDigitChar h10]
    · have hdiv : n / 10 < n := Nat.div_lt_self (by omega) (by omega)
      have hih := ih (n / 10) (by omega)
      rw [decReprF, if_neg h10, decVal, List.foldl_append]
      rw [decVal] at hih
      rw [hih]
      simp [decDigitVal_decDigitChar (Nat.mod_lt n (by omega))]
      omega

theorem decRepr_inj {m n : Nat} (h : decRepr m = decRepr n) : m = n := by
  have hm := decVal_decReprF (m + 1) m (by omega)
  have hn := decVal_decReprF (n + 1) n (by omega)
  rw [decRepr] at h
  rw [← hm, ← hn]
  rw [decRepr] at h
  rw [h]

theorem mk_idx_name_inj {stem ext : Txt} {i j : Nat}
    (h : mk_idx_name stem ext i = mk_idx_name stem ext j) : i = j := by
  rw [mk_idx_name, mk_idx_name] at h
  have h1 := List.append_cancel_right h
  have h2 := List.append_cancel_left h1
  injection h2 with _ h3
  exact decRepr_inj h3

theorem probe_idx_le {img : List (Txt × SrcFile)} {stem ext : Txt} {i : Nat}
    (h3 : ∀ j, 1 ≤ j → j < i → mk_idx_name stem ext j ∈ imageNames img) :
    i ≤ img.length + 1 := by
  by_contra hc
  push_neg at hc
  have hnd : ((List.range (img.length + 1)).map
      (fun k => mk_idx_name stem ext (k + 1))).Nodup := by
    refine (List.nodup_range _).map ?_
    intro a b hab
    have := mk_idx_name_inj hab
    omega
  have hsub : ∀ x ∈ (List.range (img.length + 1)).map
      (fun k => mk_idx_name stem ext (k + 1)), x ∈ imageNames img := by
    intro x hx
    simp only [List.mem_map, List.mem_range] at hx
    obtain ⟨k, hk, rfl⟩ := hx
    exact h3 (k + 1) (by omega) (by omega)
  have hlen : ((List.range (img.length + 1)).map
      (fun k => mk_idx_name stem ext (k + 1))).length = img.length + 1 := by simp
  have h1 := List.toFinset_card_of_nodup hnd
  have h2 : ((List.range (img.length + 1)).map
      (fun k => mk_idx_name stem ext (k + 1))).toFinset ⊆ (imageNames img).toFinset := by
    intro x hx
    rw [List.mem_toFinset] at hx ⊢
    exact hsub x hx
  have h4 := Finset.card_le_card h2
  have h5 := List.toFinset_card_le (imageNames img)
  have h6 : (imageNames img).length = img.length := by simp [imageNames]
  omega

theorem probe_name_eq {img : List (Txt × SrcFile)} {stem ext : Txt} {i : Nat}
    (h2 : mk_idx_name stem ext i ∉ imageNames img) :
    ∀ f idx, idx ≤ i → i - idx < f →
    (∀ j, idx ≤ j → j < i → mk_idx_name stem ext j ∈ imageNames img) →
    probe_name img stem ext f idx = mk_idx_name stem ext i := by
  intro f
  induction f with
  | zero => intro idx h1 h2' _; omega
  | succ f ih =>
    intro idx hle hf h3
    by_cases hidx : idx = i
    · subst hidx
      simp only [probe_name]
      rw [if_neg h2]
    · have hlt : idx < i := by omega
      have hmem := h3 idx (le_refl _) hlt
      simp only [probe_name]
      rw [if_pos hmem]
      exact ih (idx + 1) (by omega) (by omega) (fun j hj1 hj2 => h3 j (by omega) hj2)

theorem att_hit_props {att : List (List Txt × Txt)} {cand : Txt} {e : List Txt × Txt}
    (h : att_hit att cand = some e) : e ∈ att ∧ e.2 = cand := by
  rw [att_hit] at h
  split at h
  case h_1 e' h1 =>
    injection h with h'
    subst h'
    have hp := List.find?_some h1
    simp only [decide_eq_true_eq] at hp
    exact ⟨List.mem_of_find?_eq_some h1, hp.2⟩
  case h_2 h1 =>
    have hp := List.find?_some h
    simp only [decide_eq_true_eq] at hp
    exact ⟨List.mem_of_find?_eq_some h, hp⟩

theorem att_hit_exists {att : List (List Txt × Txt)} {cand : Txt} {d : List Txt} {n : Txt}
    (hmem : (d, n) ∈ att) (hn : n = cand) : ∃ e, att_hit att cand = some e := by
  rw [att_hit]
  cases h1 : att.find? (fun e => decide (e.1 = [] ∧ e.2 = cand)) with
  | some e' => exact ⟨e', rfl⟩
  | none =>
    cases h2 : att.find? (fun e => decide (e.2 = cand)) with
    | some e' => exact ⟨e', rfl⟩
    | none =>
      exfalso
      rw [List.find?_eq_none] at h2
      have := h2 (d, n) hmem
      simp [hn] at this

theorem findSome?_att_hit {att : List (List Txt × Txt)} :
    ∀ (l : List Txt) (cand : Txt), cand ∈ l → (∃ e, att_hit att cand = some e) →
    ∃ e, l.findSome? (att_hit att) = some e := by
  intro l
  induction l with
  | nil => intro cand h _; simp at h
  | cons a l ih =>
    intro cand hmem hhit
    cases ha : att_hit att a with
    | some e => exact ⟨e, by simp [List.findSome?_cons, ha]⟩
    | none =>
      rcases List.mem_cons.mp hmem with rfl | hmem'
      · obtain ⟨e, he⟩ := hhit
        rw [ha] at he
        cases he
      · obtain ⟨e, he⟩ := ih cand hmem' hhit
        exact ⟨e, by simp [List.findSome?_cons, ha, he]⟩

/-- Claim C1 (refuted by the code, confirming the spec's own "latent bug" note):
materialising the identical source file `logo.png` twice in one pass does not
reuse the first output name — the second call mints the numbered duplicate
`logo_1.png` and the ledger holds two entries for the same source. -/
theorem copy_same_source_twice_mints_numbered_duplicate :
    (copy_image_to_image_dir [] (SrcFile.fromAtt [] (("logo.png").data))).1
      = ("logo.png").data
    ∧ (copy_image_to_image_dir
        (copy_image_to_image_dir [] (SrcFile.fromAtt [] (("logo.png").data))).2
        (SrcFile.fromAtt [] (("logo.png").data))).1 = ("logo_1.png").data
    ∧ (copy_image_to_image_dir
        (copy_image_to_image_dir [] (SrcFile.fromAtt [] (("logo.png").data))).2
        (SrcFile.fromAtt [] (("logo.png").data))).2.length = 2 := by
  decide

/-- Claim C2, counterexample: for the token `weird.name` the candidate list is
just `[weird.name]` — no extension-appended and no dot-stripped candidates —
so it does not resolve although `weirdname.png` is the only attachment. -/
theorem locate_dotted_token_cex :
    locate_candidates (("weird.name").data) = [("weird.name").data]
    ∧ locate_image_by_token [([], ("weirdname.png").data)] (("weird.name").data) = none := by
  decide

/-- Claim C2, amended: extension-appended and dot-stripped candidates are
generated only for tokens whose filename has an empty `pathlib` suffix; a
token with any extension-like suffix (such as `weird.name`) yields only its
own name as candidate, so it can resolve only to an exact-name attachment. -/
theorem locate_dotted_token_exact_name_only (token : Txt) (att : List (List Txt × Txt))
    (e : List Txt × Txt)
    (h1 : pySuffix (pathName token) ≠ [])
    (h2 : locate_image_by_token att token = some e) :
    locate_candidates token = [pathName token] ∧ e.2 = pathName token := by
  have hc : locate_candidates token = [pathName token] := by
    rw [locate_candidates]
    simp [h1]
  refine ⟨hc, ?_⟩
  rw [locate_image_by_token, hc] at h2
  obtain ⟨c, hcmem, hch⟩ := List.exists_of_findSome?_eq_some h2
  simp only [List.mem_singleton] at hcmem
  subst hcmem
  exact (att_hit_props hch).2

/-- Witness for C2's amended theorem at the concrete token `weird.name`. -/
theorem locate_dotted_token_exact_name_only_witness :
    locate_candidates (("weird.name").data) = [pathName (("weird.name").data)]
    ∧ (([] : List Txt), ("weird.name").data).2 = pathName (("weird.name").data) :=
  locate_dotted_token_exact_name_only (("weird.name").data)
    [([], ("weird.name").data)] ([], ("weird.name").data)
    (by decide) (by decide)

/-- Claim C3, counterexample: rewriting is not idempotent. With attachment
`logo.png`, a document in subdirectory `sub` containing
`![a](../image/logo_1.png) ![b](nodir/logo.png) ![[logo]]` leaves the first
reference unresolved on the first pass, but the pass itself copies
`logo_1.png` into the image directory, so the second pass resolves it and
copies `logo_1_1.png`: the second rewrite changes the text again. -/
theorem rewrite_not_idempotent_cex :
    process_single_markdown
        (process_single_markdown
          ⟨[([], ("logo.png").data)], [], []⟩ [("sub").data]
          (("![a](../image/logo_1.png) ![b](nodir/logo.png) ![[logo]]").data)).2
        [("sub").data]
        (process_single_markdown
          ⟨[([], ("logo.png").data)], [], []⟩ [("sub").data]
          (("![a](../image/logo_1.png) ![b](nodir/logo.png) ![[logo]]").data)).1
      ≠ process_single_markdown
          ⟨[([], ("logo.png").data)], [], []⟩ [("sub").data]
          (("![a](../image/logo_1.png) ![b](nodir/logo.png) ![[logo]]").data) := by
  decide

/-- Claim C3, amended: a second application of the rewriter is a no-op
provided every residual embed reference of the first output still fails to
locate and every residual standard reference is still guarded or fails to
resolve under the state left by the first pass; without that proviso the
pass's own copies can make a previously failing relative path resolve. -/
theorem rewrite_noop_when_residual_references_fail
    (st : SyncSt) (docDir : List Txt) (t : Txt)
    (h1 : embed_all_fail (process_single_markdown st docDir t).2.att
      (process_single_markdown st docDir t).1 = true)
    (h2 : md_no_change (process_single_markdown st docDir t).2 docDir
      (process_single_markdown st docDir t).1 = true) :
    process_single_markdown (process_single_markdown st docDir t).2 docDir
        (process_single_markdown st docDir t).1
      = process_single_markdown st docDir t := by
  rw [process_single_markdown, sub_obsidian_noop' _ _ h1, sub_md_img_noop' _ _ _ h2]

/-- Witness for C3's amended theorem: a document whose two references both
fail to resolve is left unchanged by a second rewrite. -/
theorem rewrite_noop_when_residual_references_fail_witness :
    process_single_markdown
        (process_single_markdown ⟨[], [], []⟩ [] (("![[nope]] and ![x](gone.png)").data)).2 []
        (process_single_markdown ⟨[], [], []⟩ [] (("![[nope]] and ![x](gone.png)").data)).1
      = process_single_markdown ⟨[], [], []⟩ [] (("![[nope]] and ![x](gone.png)").data) :=
  rewrite_noop_when_residual_references_fail ⟨[], [], []⟩ []
    (("![[nope]] and ![x](gone.png)").data) (by decide) (by decide)

/-- Claim C4: when the source's base name is already taken, the existing entry
is kept (the ledger is only extended) and the names `stem_1.ext`, `stem_2.ext`,
… are probed in increasing order: the copy lands on the first index whose name
is unused. -/
theorem copy_collision_probes_first_free_suffix
    (img : List (Txt × SrcFile)) (src : SrcFile) (i : Nat)
    (h0 : SrcFile.name src ∈ imageNames img) (h1 : 1 ≤ i)
    (h2 : mk_idx_name (pyStem (SrcFile.name src)) (pySuffix (SrcFile.name src)) i
      ∉ imageNames img)
    (h3 : ∀ j, 1 ≤ j → j < i →
      mk_idx_name (pyStem (SrcFile.name src)) (pySuffix (SrcFile.name src)) j
        ∈ imageNames img) :
    copy_image_to_image_dir img src
      = (mk_idx_name (pyStem (SrcFile.name src)) (pySuffix (SrcFile.name src)) i,
         (mk_idx_name (pyStem (SrcFile.name src)) (pySuffix (SrcFile.name src)) i, src)
           :: img) := by
  have hble := probe_idx_le h3
  have hpr := probe_name_eq h2 (img.length + 1) 1 h1 (by omega)
    (fun j hj1 hj2 => h3 j hj1 hj2)
  rw [copy_image_to_image_dir]
  simp only [if_pos h0, hpr]

/-- Witness for C4: with `logo.png` and `logo_1.png` already present, a third
same-named source is copied as `logo_2.png` and the earlier entries survive. -/
theorem copy_collision_probes_first_free_suffix_witness :
    copy_image_to_image_dir
        [(("logo.png").data, SrcFile.fromAtt [] (("logo.png").data)),
         (("logo_1.png").data, SrcFile.fromAtt [("a").data] (("logo.png").data))]
        (SrcFile.fromAtt [("b").data] (("logo.png").data))
      = (mk_idx_name (pyStem (SrcFile.name (SrcFile.fromAtt [("b").data] (("logo.png").data))))
           (pySuffix (SrcFile.name (SrcFile.fromAtt [("b").data] (("logo.png").data)))) 2,
         (mk_idx_name (pyStem (SrcFile.name (SrcFile.fromAtt [("b").data] (("logo.png").data))))
           (pySuffix (SrcFile.name (SrcFile.fromAtt [("b").data] (("logo.png").data)))) 2,
          SrcFile.fromAtt [("b").data] (("logo.png").data))
           :: [(("logo.png").data, SrcFile.fromAtt [] (("logo.png").data)),
               (("logo_1.png").data, SrcFile.fromAtt [("a").data] (("logo.png").data))]) :=
  copy_collision_probes_first_free_suffix
    [(("logo.png").data, SrcFile.fromAtt [] (("logo.png").data)),
     (("logo_1.png").data, SrcFile.fromAtt [("a").data] (("logo.png").data))]
    (SrcFile.fromAtt [("b").data] (("logo.png").data)) 2
    (by decide) (by decide) (by decide)
    (by decide)

/-- Claim C5: whenever some attachment, at any nesting depth, carries a name
in the token's candidate list, the locator succeeds and returns an attachment
whose name is one of the candidates. -/
theorem locate_finds_match_at_any_depth
    (att : List (List Txt × Txt)) (token : Txt) (d : List Txt) (n : Txt)
    (h1 : (d, n) ∈ att) (h2 : n ∈ locate_candidates token) :
    ∃ e, locate_image_by_token att token = some e ∧ e ∈ att
      ∧ e.2 ∈ locate_candidates token := by
  obtain ⟨e0, he0⟩ := att_hit_exists h1 rfl
  obtain ⟨e, he⟩ := findSome?_att_hit (locate_candidates token) n h2 ⟨e0, he0⟩
  obtain ⟨c, hcmem, hch⟩ := List.exists_of_findSome?_eq_some he
  obtain ⟨hmem, heq⟩ := att_hit_props hch
  rw [locate_image_by_token]
  exact ⟨e, he, hmem, heq ▸ hcmem⟩

/-- Witness for C5 at a deeply nested attachment: token `deep` finds
`assets/x/deep.png` two levels below the attachment root. -/
theorem locate_finds_match_at_any_depth_witness :
    ∃ e, locate_image_by_token [([("assets").data, ("x").data], ("deep.png").data)]
        (("deep").data) = some e
      ∧ e ∈ [([("assets").data, ("x").data], ("deep.png").data)]
      ∧ e.2 ∈ locate_candidates (("deep").data) :=
  locate_finds_match_at_any_depth
    [([("assets").data, ("x").data], ("deep.png").data)] (("deep").data)
    [("assets").data, ("x").data] (("deep.png").data)
    (by decide) (by decide)

theorem pyStrip_keeps' (pre t : Txt) (h1 : pre ≠ [])
    (hh : ∀ c ∈ pre.head?, isPyWs c = false)
    (hl : ∀ c ∈ pre.reverse.head?, isPyWs c = false) :
    ∃ u, pyStrip (pre ++ t) = pre ++ u := by
  cases hp : pre with
  | nil => exact absurd hp h1
  | cons c pre' =>
    subst hp
    cases hr : (c :: pre').reverse with
    | nil =>
      have := congrArg List.length hr
      simp at this
    | cons d rev' =>
      refine pyStrip_keeps hr ?_ ?_
      · exact hh c (by rfl)
      · refine hl d ?_
        rw [hr]
        rfl

/-- Claim C6: a standard-markup path that is not guarded is resolved first
relative to the document's own directory — when that file exists it is the one
copied, the locator is never the source — and only when it does not exist is
the attachment locator consulted with the path's final filename component. -/
theorem md_path_resolution_order (st : SyncSt) (docDir : List Txt) (alt raw : Txt)
    (hg : guardedPath (pyStrip raw) = false) :
    ((pyStrip raw).head? ≠ some '/' →
      tgtExists st (resolveRel docDir (pathParts (pyStrip raw))) = true →
      replace_md_img st docDir alt raw
        = (imgTagTxt (copy_image_to_image_dir st.image
            (SrcFile.fromTgt (resolveRel docDir (pathParts (pyStrip raw))))).1 [],
           { st with image := (copy_image_to_image_dir st.image
            (SrcFile.fromTgt (resolveRel docDir (pathParts (pyStrip raw))))).2 }))
    ∧ (tgtExists st (resolveRel docDir (pathParts (pyStrip raw))) = false →
      ∀ e, locate_image_by_token st.att (pathName (pyStrip raw)) = some e →
      replace_md_img st docDir alt raw
        = (imgTagTxt (copy_image_to_image_dir st.image (SrcFile.fromAtt e.1 e.2)).1 [],
           { st with image :=
              (copy_image_to_image_dir st.image (SrcFile.fromAtt e.1 e.2)).2 }))
    ∧ (tgtExists st (resolveRel docDir (pathParts (pyStrip raw))) = false →
      locate_image_by_token st.att (pathName (pyStrip raw)) = none →
      replace_md_img st docDir alt raw = (mdSpan alt raw, st)) := by
  refine ⟨?_, ?_, ?_⟩
  · intro hslash htgt
    have hcand : md_candidate docDir (pyStrip raw)
        = some (resolveRel docDir (pathParts (pyStrip raw))) := by
      rw [md_candidate, if_neg hslash]
    have hres : md_resolve st docDir (pyStrip raw)
        = some (SrcFile.fromTgt (resolveRel docDir (pathParts (pyStrip raw)))) := by
      rw [md_resolve, hcand]
      simp [htgt]
    simp [replace_md_img, hg, hres]
  · intro htgt e hloc
    by_cases hslash : (pyStrip raw).head? = some '/'
    · have hcand : md_candidate docDir (pyStrip raw) = none := by
        rw [md_candidate, if_pos hslash]
      have hres : md_resolve st docDir (pyStrip raw)
          = some (SrcFile.fromAtt e.1 e.2) := by
        rw [md_resolve, hcand, hloc]
        rfl
      simp [replace_md_img, hg, hres]
    · have hcand : md_candidate docDir (pyStrip raw)
          = some (resolveRel docDir (pathParts (pyStrip raw))) := by
        rw [md_candidate, if_neg hslash]
      have hres : md_resolve st docDir (pyStrip raw)
          = some (SrcFile.fromAtt e.1 e.2) := by
        rw [md_resolve, hcand]
        simp [htgt, hloc]
      simp [replace_md_img, hg, hres]
  · intro htgt hloc
    refine replace_md_img_skip (Or.inr ?_)
    by_cases hslash : (pyStrip raw).head? = some '/'
    · rw [md_resolve, md_candidate, if_pos hslash, hloc]
      rfl
    · rw [md_resolve, md_candidate, if_neg hslash]
      simp [htgt, hloc]

/-- Witness for C6, the spec's scenario: `![cover](./cover.jpg)` with
`cover.jpg` beside the document is rewritten to `<img src="image/cover.jpg">`
and the file is copied from the target tree. -/
theorem md_path_resolution_order_witness :
    replace_md_img ⟨[], [[("cover.jpg").data]], []⟩ [] (("cover").data)
        (("./cover.jpg").data)
      = (imgTagTxt (copy_image_to_image_dir []
          (SrcFile.fromTgt (resolveRel [] (pathParts (pyStrip (("./cover.jpg").data)))))).1 [],
         ⟨[], [[("cover.jpg").data]],
          (copy_image_to_image_dir []
            (SrcFile.fromTgt (resolveRel [] (pathParts (pyStrip (("./cover.jpg").data)))))).2⟩)
    ∧ imgTagTxt (copy_image_to_image_dir []
        (SrcFile.fromTgt (resolveRel [] (pathParts (pyStrip (("./cover.jpg").data)))))).1 []
      = ("<img src=\"image/cover.jpg\">").data :=
  ⟨(md_path_resolution_order ⟨[], [[("cover.jpg").data]], []⟩ [] (("cover").data)
      (("./cover.jpg").data) (by decide)).1 (by decide) (by decide),
   by decide⟩

/-- Claim C7, counterexample: the parameter `12x34\n` does not have the exact
numeric-by-numeric `WxH` shape (it carries a trailing newline), yet the
rewriter emits width and height attributes for it, because Python `$` also
matches before a final newline. -/
theorem size_param_trailing_newline_cex :
    specExactWxH (("12x34\n").data) = false
    ∧ (repl_obsidian ⟨[([], ("a.png").data)], [], []⟩ (("a").data)
        (some (("12x34\n").data))).1
      = ("<img src=\"image/a.png\" width=\"12\" height=\"34\">").data := by
  decide

/-- Claim C7, amended: on a located embed with a pipe parameter, width and
height attributes are emitted exactly when the parameter, stripped of leading
and trailing pipes, parses as digits `x` digits followed by the end or one
final newline; any other parameter is ignored and the tag carries no
attributes (the rewriter is total, so no crash). -/
theorem size_attrs_iff_parse_wxh (st : SyncSt) (tok par : Txt) (e : List Txt × Txt)
    (hloc : locate_image_by_token st.att (pyStrip tok) = some e) :
    (∀ w h, parse_wxh (pyStripPipes par) = some (w, h) →
      repl_obsidian st tok (some par)
        = (imgTagTxt (copy_image_to_image_dir st.image (SrcFile.fromAtt e.1 e.2)).1
            (sizeAttrs w h),
           { st with image :=
              (copy_image_to_image_dir st.image (SrcFile.fromAtt e.1 e.2)).2 }))
    ∧ (parse_wxh (pyStripPipes par) = none →
      repl_obsidian st tok (some par)
        = (imgTagTxt (copy_image_to_image_dir st.image (SrcFile.fromAtt e.1 e.2)).1 [],
           { st with image :=
              (copy_image_to_image_dir st.image (SrcFile.fromAtt e.1 e.2)).2 })) := by
  constructor
  · intro w h hp
    simp [repl_obsidian, hloc, hp]
  · intro hp
    simp [repl_obsidian, hloc, hp]

/-- Witness for C7's amended theorem at the well-formed parameter `300x200`. -/
theorem size_attrs_iff_parse_wxh_witness :
    repl_obsidian ⟨[([], ("a.png").data)], [], []⟩ (("a").data)
        (some (("300x200").data))
      = (imgTagTxt (copy_image_to_image_dir []
          (SrcFile.fromAtt [] (("a.png").data))).1
          (sizeAttrs (("300").data) (("200").data)),
         ⟨[([], ("a.png").data)], [],
          (copy_image_to_image_dir [] (SrcFile.fromAtt [] (("a.png").data))).2⟩) :=
  (size_attrs_iff_parse_wxh ⟨[([], ("a.png").data)], [], []⟩ (("a").data)
      (("300x200").data) ([], ("a.png").data) (by decide)).1
    (("300").data) (("200").data) (by decide)

/-- Claim C8: a standard-markup reference whose path begins with `http://`,
`https://`, `data:` or the output prefix `image/` is left byte-identical, with
no state change. -/
theorem guarded_paths_left_unchanged (st : SyncSt) (docDir : List Txt) (alt raw : Txt)
    (h : startsWithTxt (("http://").data) raw = true
       ∨ startsWithTxt (("https://").data) raw = true
       ∨ startsWithTxt (("data:").data) raw = true
       ∨ startsWithTxt (("image/").data) raw = true) :
    replace_md_img st docDir alt raw = (mdSpan alt raw, st) := by
  have hg : guardedPath (pyStrip raw) = true := by
    rcases h with h | h | h | h
    · obtain ⟨t, rfl⟩ := startsWithTxt_iff.mp h
      obtain ⟨u, hu⟩ := pyStrip_keeps' (("http://").data) t (by decide) (by decide) (by decide)
      rw [guardedPath, hu]
      have hs : startsWithTxt (("http://").data) ((("http://").data) ++ u) = true :=
        startsWithTxt_iff.mpr ⟨u, rfl⟩
      simp only [Bool.or_eq_true]
      exact Or.inl (Or.inl (Or.inl hs))
    · obtain ⟨t, rfl⟩ := startsWithTxt_iff.mp h
      obtain ⟨u, hu⟩ := pyStrip_keeps' (("https://").data) t (by decide) (by decide) (by decide)
      rw [guardedPath, hu]
      have hs : startsWithTxt (("https://").data) ((("https://").data) ++ u) = true :=
        startsWithTxt_iff.mpr ⟨u, rfl⟩
      simp only [Bool.or_eq_true]
      exact Or.inl (Or.inl (Or.inr hs))
    · obtain ⟨t, rfl⟩ := startsWithTxt_iff.mp h
      obtain ⟨u, hu⟩ := pyStrip_keeps' (("data:").data) t (by decide) (by decide) (by decide)
      rw [guardedPath, hu]
      have hs : startsWithTxt (("data:").data) ((("data:").data) ++ u) = true :=
        startsWithTxt_iff.mpr ⟨u, rfl⟩
      simp only [Bool.or_eq_true]
      exact Or.inl (Or.inr hs)
    · obtain ⟨t, rfl⟩ := startsWithTxt_iff.mp h
      obtain ⟨u, hu⟩ := pyStrip_keeps' (("image/").data) t (by decide) (by decide) (by decide)
      rw [guardedPath, hu]
      have hs : startsWithTxt (("image/").data) ((("image/").data) ++ u) = true :=
        startsWithTxt_iff.mpr ⟨u, rfl⟩
      simp only [Bool.or_eq_true]
      exact Or.inr hs
  simp [replace_md_img, hg]

/-- Witness for C8 at an external URL reference. -/
theorem guarded_paths_left_unchanged_witness :
    replace_md_img ⟨[], [], []⟩ [] (("x").data) (("https://example.com/a.png").data)
      = (mdSpan (("x").data) (("https://example.com/a.png").data), ⟨[], [], []⟩) :=
  guarded_paths_left_unchanged ⟨[], [], []⟩ [] (("x").data)
    (("https://example.com/a.png").data) (Or.inr (Or.inl (by decide)))

/-- Claim C9: a reference that resolves to nothing is non-fatal — the embed
replacement and the standard replacement both return the original matched text
with the state untouched, and the embed scan emits the original span and
continues scanning the remainder of the text. -/
theorem unresolved_reference_left_byte_identical (st : SyncSt) (docDir : List Txt)
    (tok : Txt) (par : Option Txt) (alt raw : Txt)
    (h1 : locate_image_by_token st.att (pyStrip tok) = none)
    (h2 : md_resolve st docDir (pyStrip raw) = none) :
    repl_obsidian st tok par = (embedSpan tok par, st)
    ∧ replace_md_img st docDir alt raw = (mdSpan alt raw, st)
    ∧ ∀ (f : Nat) (s rest : Txt), matchEmbedAt s = some (tok, par, rest) →
        sub_obsidian_f (f + 1) st s
          = (embedSpan tok par ++ (sub_obsidian_f f st rest).1,
             (sub_obsidian_f f st rest).2) := by
  refine ⟨repl_obsidian_notFound h1, replace_md_img_skip (Or.inr h2), ?_⟩
  intro f s rest hm
  cases s with
  | nil =>
    have hnone : matchEmbedAt ([] : Txt) = none := by decide
    rw [hnone] at hm
    cases hm
  | cons c cs =>
    simp [sub_obsidian_f, hm, repl_obsidian_notFound h1]

/-- Witness for C9 at the unresolvable references `![[gone]]` and
`![x](missing.png)` against an empty attachment tree. -/
theorem unresolved_reference_left_byte_identical_witness :
    repl_obsidian ⟨[], [], []⟩ (("gone").data) none
      = (embedSpan (("gone").data) none, ⟨[], [], []⟩)
    ∧ replace_md_img ⟨[], [], []⟩ [] (("x").data) (("missing.png").data)
      = (mdSpan (("x").data) (("missing.png").data), ⟨[], [], []⟩)
    ∧ ∀ (f : Nat) (s rest : Txt), matchEmbedAt s = some ((("gone").data), none, rest) →
        sub_obsidian_f (f + 1) ⟨[], [], []⟩ s
          = (embedSpan (("gone").data) none ++ (sub_obsidian_f f ⟨[], [], []⟩ rest).1,
             (sub_obsidian_f f ⟨[], [], []⟩ rest).2) :=
  unresolved_reference_left_byte_identical ⟨[], [], []⟩ [] (("gone").data) none
    (("x").data) (("missing.png").data) (by decide) (by decide)

/-- Claim C10: the embed token is whitespace-stripped before resolution, so a
token written with surrounding blanks resolves and rewrites exactly as the
bare token does (on any located token). -/
theorem embed_token_stripped_before_resolution (st : SyncSt) (tok : Txt)
    (par : Option Txt) (e : List Txt × Txt)
    (h : locate_image_by_token st.att (pyStrip tok) = some e) :
    repl_obsidian st tok par = repl_obsidian st (pyStrip tok) par := by
  have hi : pyStrip (pyStrip tok) = pyStrip tok := pyStrip_idem tok
  simp [repl_obsidian, hi, h]

/-- Witness for C10 at the token ` logo ` of `![[ logo ]]`. -/
theorem embed_token_stripped_before_resolution_witness :
    repl_obsidian ⟨[([], ("logo.png").data)], [], []⟩ ((" logo ").data) none
      = repl_obsidian ⟨[([], ("logo.png").data)], [], []⟩ (pyStrip ((" logo ").data)) none :=
  embed_token_stripped_before_resolution ⟨[([], ("logo.png").data)], [], []⟩
    ((" logo ").data) none ([], ("logo.png").data) (by decide)
